import Mathlib

/-!
Shallow embedding of the `welshtools` transcription pipeline
(`src/welshtools/shared.py` and `src/welshtools/transcription.py`)
and proofs of the specification claims about it.

Strings are modelled as `List Char`; machine text operations
(`str.replace`, `str.strip`, `str.split`) are embedded as executable
functions on character lists, translated from the Python source.
-/

namespace WelshTools

/-- From `shared.chunks`: yield successive `chunk_size`-sized slices of the
list (Python: `for i in range(0, len(lst), chunk_size): yield
lst[i:i+chunk_size]`).  For `chunk_size = 0` Python's `range` raises
`ValueError`; the embedding returns `[]` there, and every claim about
`chunks` assumes `1 ≤ chunk_size`. -/
def chunks : List α → Nat → List (List α)
  | _, 0 => []
  | [], _ + 1 => []
  | a :: rest, p + 1 => (a :: rest).take (p + 1) :: chunks (rest.drop p) (p + 1)
termination_by l _ => l.length
decreasing_by
  simp only [List.length_drop, List.length_cons]
  omega

theorem chunks_zero (l : List α) : chunks l 0 = [] := by
  cases l <;> simp [chunks]

theorem chunks_nil (p : Nat) : chunks ([] : List α) p = [] := by
  cases p <;> simp [chunks]

theorem chunks_cons (a : α) (rest : List α) (p : Nat) :
    chunks (a :: rest) (p + 1) =
      (a :: rest).take (p + 1) :: chunks (rest.drop p) (p + 1) := by
  simp [chunks]

theorem chunks_join (p : Nat) (hp : p ≠ 0) (l : List α) :
    (chunks l p).flatten = l := by
  induction l, p using chunks.induct with
  | case1 l => exact absurd rfl hp
  | case2 p => rw [chunks_nil]; rfl
  | case3 a rest p ih =>
      rw [chunks_cons, List.flatten_cons, ih (by omega)]
      show (a :: rest).take (p + 1) ++ (a :: rest).drop (p + 1) = a :: rest
      exact List.take_append_drop (p + 1) (a :: rest)

theorem chunks_length_le (p : Nat) (l : List α) :
    ∀ c ∈ chunks l p, c.length ≤ p := by
  induction l, p using chunks.induct with
  | case1 l => rw [chunks_zero]; intro c hc; cases hc
  | case2 p => rw [chunks_nil]; intro c hc; cases hc
  | case3 a rest p ih =>
      rw [chunks_cons]
      intro c hc
      rcases List.mem_cons.mp hc with h | h
      · subst h; simp
      · exact ih c h

theorem chunks_dropLast_length (p : Nat) (hp : p ≠ 0) (l : List α) :
    ∀ c ∈ (chunks l p).dropLast, c.length = p := by
  induction l, p using chunks.induct with
  | case1 l => exact absurd rfl hp
  | case2 p => rw [chunks_nil]; intro c hc; cases hc
  | case3 a rest p ih =>
      rw [chunks_cons]
      intro c hc
      by_cases hrest : chunks (rest.drop p) (p + 1) = []
      · rw [hrest] at hc
        cases hc
      · rw [List.dropLast_cons_of_ne_nil hrest] at hc
        rcases List.mem_cons.mp hc with h | h
        · subst h
          rw [List.length_take]
          -- the tail of chunks is nonempty, so p + 1 < (a :: rest).length
          have hlen : rest.drop p ≠ [] := by
            intro hdrop
            rw [hdrop, chunks_nil] at hrest
            exact hrest rfl
          have : p < rest.length := by
            by_contra hge
            exact hlen (List.drop_eq_nil_of_le (by omega))
          simp
          omega
        · exact ih (by omega) c h

/-- Claim C1 helper: mapping each chunk in order and concatenating the
results equals mapping the original list. -/
theorem chunks_map_flatten (p : Nat) (hp : p ≠ 0) (l : List α) (f : α → β) :
    ((chunks l p).map (List.map f)).flatten = l.map f := by
  rw [← List.map_flatten, chunks_join p hp]

/-- C1: for every input sequence and every pool size `p ≥ 1`, the chunk
partition used by `transcribe_file` (`shared.chunks`) yields consecutive
chunks each of length exactly `p` except possibly a shorter final chunk,
its concatenation equals the original sequence, and mapping each chunk in
order and writing the results in order makes output record `i` correspond
to input record `i`. -/
theorem transcribe_file_chunk_partition (l : List α) (p : Nat) (hp : 1 ≤ p)
    (f : α → β) :
    (chunks l p).flatten = l
    ∧ (∀ c ∈ (chunks l p).dropLast, c.length = p)
    ∧ (∀ c ∈ chunks l p, c.length ≤ p)
    ∧ ((chunks l p).map (List.map f)).flatten = l.map f
    ∧ ∀ i : Nat, (((chunks l p).map (List.map f)).flatten)[i]? =
        (l.map f)[i]? := by
  refine ⟨chunks_join p (by omega) l, chunks_dropLast_length p (by omega) l,
          chunks_length_le p l, chunks_map_flatten p (by omega) l f, ?_⟩
  intro i
  rw [chunks_map_flatten p (by omega) l f]

theorem transcribe_file_chunk_partition_witness :
    (chunks [10, 20, 30, 40, 50] 2).flatten = [10, 20, 30, 40, 50]
    ∧ (∀ c ∈ (chunks [10, 20, 30, 40, 50] 2).dropLast, c.length = 2)
    ∧ (∀ c ∈ chunks [10, 20, 30, 40, 50] 2, c.length ≤ 2)
    ∧ ((chunks [10, 20, 30, 40, 50] 2).map (List.map (· + 1))).flatten =
        [10, 20, 30, 40, 50].map (· + 1)
    ∧ ∀ i : Nat,
        (((chunks [10, 20, 30, 40, 50] 2).map (List.map (· + 1))).flatten)[i]? =
          ([10, 20, 30, 40, 50].map (· + 1))[i]? :=
  transcribe_file_chunk_partition [10, 20, 30, 40, 50] 2 (by decide) (· + 1)

/-- Numeric core of `shared.estimate_remaining_time` in exact arithmetic:
`time_per_unit = elapsed / count`, `time_required = time_per_unit * total`,
`time_remaining = time_required - elapsed`.  (The Python function then
formats this value as an `H:m:s` string, which is presentation only.) -/
def estimate_remaining_time_value (count total elapsed : ℚ) : ℚ :=
  let time_per_unit := elapsed / count
  let time_required := time_per_unit * total
  time_required - elapsed

/-- C9: for every processed count `c` with `1 ≤ c ≤ total` and elapsed time
`e ≥ 0`, the remaining-time value computed by `estimate_remaining_time`
(`time_per_unit * total - elapsed`) equals the spec's formula
`(elapsed / processed) * (total - processed)` in exact arithmetic. -/
theorem estimate_remaining_time_eq_spec_formula (count total elapsed : ℚ)
    (h1 : 1 ≤ count) (_h2 : count ≤ total) (_h3 : 0 ≤ elapsed) :
    estimate_remaining_time_value count total elapsed =
      (elapsed / count) * (total - count) := by
  have hc : count ≠ 0 := by intro h; rw [h] at h1; norm_num at h1
  unfold estimate_remaining_time_value
  field_simp
  ring

theorem estimate_remaining_time_eq_spec_formula_witness :
    estimate_remaining_time_value 2 4 6 = (6 / 2) * (4 - 2) :=
  estimate_remaining_time_eq_spec_formula 2 4 6 (by norm_num) (by norm_num)
    (by norm_num)

/-- Python `str.replace(old, new)` specialised to a single-character
pattern: every occurrence of `old` is replaced by `new`, left to right. -/
def pyReplace1 (old : Char) (new : List Char) : List Char → List Char
  | [] => []
  | c :: rest =>
      if c = old then new ++ pyReplace1 old new rest
      else c :: pyReplace1 old new rest

/-- From `transcription.festival_escape`: apply the escape mapping
`[['\\', '\\\\'], ['"', '\\"']]` in order — first double every backslash,
then escape every double quote. -/
def festival_escape (s : List Char) : List Char :=
  pyReplace1 '"' ['\\', '"'] (pyReplace1 '\\' ['\\', '\\'] s)

/-- Per-character form of the composed escape. -/
def escChar (c : Char) : List Char :=
  if c = '\\' then ['\\', '\\'] else if c = '"' then ['\\', '"'] else [c]

theorem festival_escape_nil : festival_escape [] = [] := rfl

theorem festival_escape_cons (c : Char) (s : List Char) :
    festival_escape (c :: s) = escChar c ++ festival_escape s := by
  by_cases hb : c = '\\'
  · subst hb
    simp [festival_escape, pyReplace1, escChar]
  · by_cases hq : c = '"'
    · subst hq
      simp [festival_escape, pyReplace1, escChar]
    · simp [festival_escape, pyReplace1, escChar, hb, hq]

/-- Decoder for the escape transformation, formalising the claim's
"conceptually reversed" direction: a backslash consumes the next character
literally; everything else is copied. -/
def festival_unescape : List Char → List Char
  | [] => []
  | [c] => [c]
  | c :: d :: rest =>
      if c = '\\' then d :: festival_unescape rest
      else c :: festival_unescape (d :: rest)

/-- Formalises "no backslash is left unescaped": every backslash in the
list is immediately followed by a backslash or a double quote, starting an
escape pair. -/
def noUnescapedBackslash : List Char → Bool
  | [] => true
  | [c] => if c = '\\' then false else true
  | c :: d :: rest =>
      if c = '\\' then
        if d = '\\' ∨ d = '"' then noUnescapedBackslash rest else false
      else noUnescapedBackslash (d :: rest)

theorem festival_unescape_escChar (c : Char) (t : List Char) :
    festival_unescape (escChar c ++ t) = c :: festival_unescape t := by
  by_cases hb : c = '\\'
  · subst hb
    simp [escChar, festival_unescape]
  · by_cases hq : c = '"'
    · subst hq
      simp [escChar, festival_unescape]
    · cases t with
      | nil => simp [escChar, hb, hq, festival_unescape]
      | cons d rest => simp [escChar, hb, hq, festival_unescape]

theorem noUnescapedBackslash_escChar (c : Char) (t : List Char) :
    noUnescapedBackslash (escChar c ++ t) = noUnescapedBackslash t := by
  by_cases hb : c = '\\'
  · subst hb
    simp [escChar, noUnescapedBackslash]
  · by_cases hq : c = '"'
    · subst hq
      simp [escChar, noUnescapedBackslash]
    · cases t with
      | nil => simp [escChar, hb, hq, noUnescapedBackslash]
      | cons d rest => simp [escChar, hb, hq, noUnescapedBackslash]

theorem festival_unescape_escape (s : List Char) :
    festival_unescape (festival_escape s) = s := by
  induction s with
  | nil => rfl
  | cons c s ih => rw [festival_escape_cons, festival_unescape_escChar, ih]

theorem festival_escape_noUnescaped (s : List Char) :
    noUnescapedBackslash (festival_escape s) = true := by
  induction s with
  | nil => rfl
  | cons c s ih => rw [festival_escape_cons, noUnescapedBackslash_escChar, ih]

/-- C3: `festival_escape` doubles every backslash and then escapes every
double quote; the transformation is injective — the original string is
recovered by the decoder `festival_unescape` — and no backslash in the
output is left unescaped. -/
theorem festival_escape_reversible :
    Function.Injective festival_escape
    ∧ (∀ s : List Char, festival_unescape (festival_escape s) = s)
    ∧ (∀ s : List Char, noUnescapedBackslash (festival_escape s) = true) :=
  ⟨Function.LeftInverse.injective festival_unescape_escape,
   festival_unescape_escape, festival_escape_noUnescaped⟩

/-- Modelled from the spec: the call `unicodedata.normalize('NFKD', ...)`
inside `map_utf8_to_festival` is the Python standard library, not part of
this repository.  This table records the Unicode NFKD decomposition (base
letter followed by a combining mark) of the precomposed codepoints of the
Welsh alphabet that the program handles: circumflex U+0302, diaeresis
U+0308, acute U+0301 and grave U+0300 over A, E, I, O, U, W, Y in both
cases.  Every codepoint not listed — in particular every ASCII codepoint —
decomposes to itself. -/
def nfkdTable : List (Char × List Char) :=
  [ ('Â', ['A', '̂']), ('Ê', ['E', '̂']),
    ('Î', ['I', '̂']), ('Ô', ['O', '̂']),
    ('Û', ['U', '̂']), ('Ŵ', ['W', '̂']),
    ('Ŷ', ['Y', '̂']),
    ('â', ['a', '̂']), ('ê', ['e', '̂']),
    ('î', ['i', '̂']), ('ô', ['o', '̂']),
    ('û', ['u', '̂']), ('ŵ', ['w', '̂']),
    ('ŷ', ['y', '̂']),
    ('Ä', ['A', '̈']), ('Ë', ['E', '̈']),
    ('Ï', ['I', '̈']), ('Ö', ['O', '̈']),
    ('Ü', ['U', '̈']), ('Ẅ', ['W', '̈']),
    ('Ÿ', ['Y', '̈']),
    ('ä', ['a', '̈']), ('ë', ['e', '̈']),
    ('ï', ['i', '̈']), ('ö', ['o', '̈']),
    ('ü', ['u', '̈']), ('ẅ', ['w', '̈']),
    ('ÿ', ['y', '̈']),
    ('Á', ['A', '́']), ('É', ['E', '́']),
    ('Í', ['I', '́']), ('Ó', ['O', '́']),
    ('Ú', ['U', '́']), ('Ẃ', ['W', '́']),
    ('Ý', ['Y', '́']),
    ('á', ['a', '́']), ('é', ['e', '́']),
    ('í', ['i', '́']), ('ó', ['o', '́']),
    ('ú', ['u', '́']), ('ẃ', ['w', '́']),
    ('ý', ['y', '́']),
    ('À', ['A', '̀']), ('È', ['E', '̀']),
    ('Ì', ['I', '̀']), ('Ò', ['O', '̀']),
    ('Ù', ['U', '̀']), ('Ẁ', ['W', '̀']),
    ('Ỳ', ['Y', '̀']),
    ('à', ['a', '̀']), ('è', ['e', '̀']),
    ('ì', ['i', '̀']), ('ò', ['o', '̀']),
    ('ù', ['u', '̀']), ('ẁ', ['w', '̀']),
    ('ỳ', ['y', '̀']) ]

/-- NFKD decomposition of a single codepoint (identity off the table). -/
def nfkdDecomp (c : Char) : List Char :=
  match nfkdTable.find? (fun p => p.1 == c) with
  | some p => p.2
  | none => [c]

/-- NFKD normalization of a string, codepoint by codepoint. -/
def nfkd (s : List Char) : List Char :=
  (s.map nfkdDecomp).flatten

/-- From `transcription.map_utf8_to_festival`: NFKD-normalize, replace the
four combining marks by their ASCII surrogate markers (`^`→`+`, `¨`→`:`,
`´`→`/`, `` ` ``→`\`, in the dictionary's insertion order), then drop every
remaining non-ASCII codepoint (`str.encode('ASCII', 'ignore')`). -/
def map_utf8_to_festival (s : List Char) : List Char :=
  let s1 := nfkd s
  let s2 := pyReplace1 '̂' ['+'] s1
  let s3 := pyReplace1 '̈' [':'] s2
  let s4 := pyReplace1 '́' ['/'] s3
  let s5 := pyReplace1 '̀' ['\\'] s4
  s5.filter (fun c => c.toNat < 128)

/-- The per-codepoint form of the four mark replacements. -/
def festivalMark (c : Char) : Char :=
  if c = '̂' then '+'
  else if c = '̈' then ':'
  else if c = '́' then '/'
  else if c = '̀' then '\\'
  else c

theorem pyReplace1_single (old x : Char) (s : List Char) :
    pyReplace1 old [x] s = s.map (fun c => if c = old then x else c) := by
  induction s with
  | nil => rfl
  | cons c rest ih =>
      by_cases h : c = old <;> simp [pyReplace1, h, ih]

theorem festivalMark_steps (c : Char) :
    (fun c => if c = '̀' then '\\' else c)
      ((fun c => if c = '́' then '/' else c)
        ((fun c => if c = '̈' then ':' else c)
          ((fun c => if c = '̂' then '+' else c) c))) = festivalMark c := by
  by_cases h1 : c = '̂'
  · subst h1; decide
  · by_cases h2 : c = '̈'
    · subst h2; decide
    · by_cases h3 : c = '́'
      · subst h3; decide
      · by_cases h4 : c = '̀'
        · subst h4; decide
        · simp [festivalMark, h1, h2, h3, h4]

/-- The sequential single-character replaces of the source equal one
per-codepoint translation followed by the ASCII filter. -/
theorem map_utf8_to_festival_eq_map (s : List Char) :
    map_utf8_to_festival s =
      ((nfkd s).map festivalMark).filter (fun c => c.toNat < 128) := by
  simp only [map_utf8_to_festival]
  rw [pyReplace1_single, pyReplace1_single, pyReplace1_single,
      pyReplace1_single, List.map_map, List.map_map, List.map_map]
  congr 1
  apply List.map_congr_left
  intro c _
  exact festivalMark_steps c

theorem nfkdTable_keys_nonascii : ∀ p ∈ nfkdTable, 128 ≤ p.1.toNat := by
  decide

theorem nfkdDecomp_ascii (c : Char) (h : c.toNat < 128) :
    nfkdDecomp c = [c] := by
  unfold nfkdDecomp
  have hfind : nfkdTable.find? (fun p => p.1 == c) = none := by
    apply List.find?_eq_none.mpr
    intro p hp
    simp only [beq_iff_eq]
    intro he
    have := nfkdTable_keys_nonascii p hp
    rw [he] at this
    omega
  rw [hfind]

theorem festivalMark_ascii (c : Char) (h : c.toNat < 128) :
    festivalMark c = c := by
  have h1 : c ≠ '̂' := by intro he; subst he; exact absurd h (by decide)
  have h2 : c ≠ '̈' := by intro he; subst he; exact absurd h (by decide)
  have h3 : c ≠ '́' := by intro he; subst he; exact absurd h (by decide)
  have h4 : c ≠ '̀' := by intro he; subst he; exact absurd h (by decide)
  simp [festivalMark, h1, h2, h3, h4]

theorem nfkd_ascii (l : List Char) (h : ∀ c ∈ l, c.toNat < 128) :
    nfkd l = l := by
  unfold nfkd
  induction l with
  | nil => rfl
  | cons c rest ih =>
      simp only [List.map_cons, List.flatten_cons]
      rw [nfkdDecomp_ascii c (h c (by simp)),
          ih (fun x hx => h x (by simp [hx]))]
      rfl

theorem map_festivalMark_ascii (l : List Char) (h : ∀ c ∈ l, c.toNat < 128) :
    l.map festivalMark = l := by
  induction l with
  | nil => rfl
  | cons c rest ih =>
      simp only [List.map_cons]
      rw [festivalMark_ascii c (h c (by simp)),
          ih (fun x hx => h x (by simp [hx]))]

theorem map_utf8_to_festival_mem_ascii (s : List Char) :
    ∀ c ∈ map_utf8_to_festival s, c.toNat < 128 := by
  intro c hc
  rw [map_utf8_to_festival_eq_map] at hc
  have := List.mem_filter.mp hc
  simpa using this.2

/-- C4: `map_utf8_to_festival` applies compatibility decomposition,
translates exactly the four combining marks circumflex, diaeresis, acute
and grave into `+`, `:`, `/` and `\` after the base letter, and drops every
remaining non-ASCII codepoint; in particular it maps `"â"` to `"a+"` and
`"café"` to `"cafe/"`.  It is a total function — it never fails. -/
theorem map_utf8_to_festival_spec :
    map_utf8_to_festival ['â'] = ['a', '+']
    ∧ map_utf8_to_festival ['c', 'a', 'f', 'é'] = ['c', 'a', 'f', 'e', '/']
    ∧ festivalMark '̂' = '+'
    ∧ festivalMark '̈' = ':'
    ∧ festivalMark '́' = '/'
    ∧ festivalMark '̀' = '\\'
    ∧ ∀ s : List Char, map_utf8_to_festival s =
        ((nfkd s).map festivalMark).filter (fun c => c.toNat < 128) :=
  ⟨by decide, by decide, rfl, rfl, rfl, rfl, map_utf8_to_festival_eq_map⟩

/-- C10: the output of `map_utf8_to_festival` consists only of ASCII
codepoints (below 128), and the function is idempotent. -/
theorem map_utf8_to_festival_ascii_idempotent :
    (∀ s : List Char, ∀ c ∈ map_utf8_to_festival s, c.toNat < 128)
    ∧ ∀ s : List Char,
        map_utf8_to_festival (map_utf8_to_festival s) =
          map_utf8_to_festival s := by
  refine ⟨map_utf8_to_festival_mem_ascii, ?_⟩
  intro s
  have ht := map_utf8_to_festival_mem_ascii s
  rw [map_utf8_to_festival_eq_map (map_utf8_to_festival s),
      nfkd_ascii _ ht, map_festivalMark_ascii _ ht]
  apply List.filter_eq_self.mpr
  intro c hc
  simpa using ht c hc

/-- Python exceptions that the embedded functions can raise. -/
inductive PyError where
  | typeError (msg : String)
  | valueError (msg : String)
  | indexError (msg : String)
  | fileNotFoundError
  deriving DecidableEq, Repr

/-- Python whitespace characters recognised by `str.split()` / `str.strip()`
(the ASCII ones, which cover all data this program produces). -/
def isPySpace (c : Char) : Bool :=
  c = ' ' ∨ c = '\t' ∨ c = '\n' ∨ c = '\r' ∨ c = '\x0b' ∨ c = '\x0c'

/-- Python `str.strip()`: remove whitespace from both ends. -/
def pyStrip (s : List Char) : List Char :=
  ((s.dropWhile isPySpace).reverse.dropWhile isPySpace).reverse

/-- Helper for `pySplitWs`, carrying the current (reversed) token. -/
def pySplitWsAux (s : List Char) (acc : List Char) : List (List Char) :=
  match s with
  | [] => if acc.isEmpty then [] else [acc.reverse]
  | c :: rest =>
      if isPySpace c then
        if acc.isEmpty then pySplitWsAux rest []
        else acc.reverse :: pySplitWsAux rest []
      else pySplitWsAux rest (c :: acc)

/-- Python `str.split()` with no argument: split on whitespace runs,
discarding empty tokens. -/
def pySplitWs (s : List Char) : List (List Char) :=
  pySplitWsAux s []

/-- `festival_to_ipa_mapping` from `transcription.map_festival_to_ipa`:
the documented segment-label → IPA table, in source order. -/
def festivalToIpaMapping : List (String × String) :=
  [ ("i", "i"), ("e", "e"), ("a", "a"), ("o", "o"), ("u", "u"),
    ("y", "ɨ"), ("@", "ə"),
    ("ii", "iː"), ("ee", "eː"), ("aa", "aː"), ("oo", "oːː"),
    ("uu", "uː"), ("yy", "ɨː"), ("@@", "əː"),
    ("oa", "oa"), ("oi", "oi"), ("ou", "ou"), ("oy", "oɨ"),
    ("ai", "ai"), ("au", "au"), ("ay", "aɨ"), ("aay", "aːɨ"),
    ("uy", "uɨ"), ("iu", "iu"), ("ei", "ei"), ("eu", "eu"),
    ("ey", "eɨ"), ("ye", "ɨe"),
    ("p", "p"), ("t", "t"), ("k", "k"), ("b", "b"), ("d", "d"),
    ("g", "g"), ("f", "f"), ("th", "θ"), ("h", "h"), ("x", "χ"),
    ("v", "v"), ("dh", "ð"), ("s", "s"), ("z", "z"), ("sh", "ʃ"),
    ("zh", "ʒ"), ("ch", "t͡ʃ"), ("jh", "d͡ʒ"), ("lh", "ɬ"),
    ("rh", "r̥ʰ"), ("l", "l"), ("r", "r"), ("w", "w"), ("j", "j"),
    ("m", "m"), ("n", "n"), ("ng", "ŋ"), ("mh", "m̥"), ("nh", "n̥"),
    ("ngh", "ŋ̊"), ("lw", "lʷ"), ("nw", "nʷ"), ("rw", "rʷ") ]

/-- `festival_to_ipa_fixes`: undocumented additional mappings, merged into
the main table by `festival_to_ipa_mapping.update(...)`. -/
def festivalToIpaFixes : List (String × String) :=
  [ ("hh", "h"), ("yu", "ɨu"), ("sil", " "), ("#", "") ]

/-- `festival_tense_lax_augmentation`: overlay applied when
`encode_tense_lax` is true. -/
def festivalTenseLaxAugmentation : List (String × String) :=
  [ ("i", "ɪ"), ("e", "ɛ"), ("a", "a"), ("aa", "ɑː"),
    ("o", "ɔ"), ("u", "ʊ") ]

/-- `festival_labialisation_augmentation`: overlay applied when
`encode_labialisation` is false. -/
def festivalLabialisationAugmentation : List (String × String) :=
  [ ("lw", "lw"), ("nw", "nw"), ("rw", "rw") ]

/-- `festival_long_schwa_augmentation`: built by the source when
`encode_long_schwa` is false — but the source never calls
`festival_to_ipa_mapping.update` on it, so it never reaches the table
actually used for lookup. -/
def festivalLongSchwaAugmentation : List (String × String) :=
  [ ("@@", "ə") ]

/-- The lookup table used by `map_festival_to_ipa` after all `update`
calls.  A `dict.update` overrides earlier entries, so later updates are
prepended (lookup takes the first match).  Update order in the source:
fixes, then the tense/lax overlay (if enabled), then the labialisation
overlay (if enabled).  The long-schwa overlay is constructed but never
merged — the `update` call is missing in the source — so the table does
not depend on `encode_long_schwa`. -/
def ipaTable (encode_tense_lax encode_labialisation : Bool) :
    List (String × String) :=
  (if encode_labialisation = false then festivalLabialisationAugmentation
   else [])
  ++ (if encode_tense_lax then festivalTenseLaxAugmentation else [])
  ++ festivalToIpaFixes
  ++ festivalToIpaMapping

/-- The lookup/concatenation loop of `map_festival_to_ipa`: for each token,
`transcription += festival_to_ipa_mapping[item.strip()]`.  On an unknown
token the Python `except KeyError` handler executes `ex.args[0] = ...`;
`args` is a tuple, so this itself raises
`TypeError: 'tuple' object does not support item assignment` and the
intended re-`raise` of the `KeyError` naming the label is never reached. -/
def ipaConcat (table : List (String × String)) :
    List (List Char) → Except PyError (List Char)
  | [] => .ok []
  | tok :: rest =>
      match table.find? (fun p => p.1 == String.mk (pyStrip tok)) with
      | some p => (ipaConcat table rest).map (fun t => p.2.data ++ t)
      | none =>
          .error (.typeError "\x27tuple\x27 object does not support item assignment")

/-- From `transcription.map_festival_to_ipa`: split the segment string on
whitespace, map every token through the (augmented) table, concatenate and
strip the result.  The `encode_long_schwa` parameter is accepted, as in the
source, but has no effect on the table (see `ipaTable`). -/
def map_festival_to_ipa (encode_tense_lax encode_labialisation
    _encode_long_schwa : Bool) (s : List Char) : Except PyError (List Char) :=
  (ipaConcat (ipaTable encode_tense_lax encode_labialisation)
    (pySplitWs s)).map pyStrip

/-- C2 (code bug): feeding a segment stream with the unknown label `"zz"`
does not raise an error naming `"zz"` — the broken `except KeyError`
handler raises a `TypeError` about tuple item assignment instead, with the
offending label lost.  (No partial IPA string is returned.) -/
theorem map_festival_to_ipa_unknown_segment :
    map_festival_to_ipa false true true "zz".data =
        .error (.typeError "\x27tuple\x27 object does not support item assignment")
    ∧ ¬ "zz".data <:+:
        ("\x27tuple\x27 object does not support item assignment" : String).data := by
  exact ⟨rfl, by decide⟩

/-- C5 (code bug): with `encode_long_schwa = false` the label `"@@"` still
maps to the long `"əː"` — the overlay dict is constructed but
`festival_to_ipa_mapping.update` is never called on it, so the flag has no
effect on the function at all. -/
theorem map_festival_to_ipa_long_schwa_not_applied :
    map_festival_to_ipa false true false "@@".data = .ok "əː".data
    ∧ map_festival_to_ipa false true false "@@".data ≠ .ok "ə".data
    ∧ ∀ (tl lab : Bool) (s : List Char),
        map_festival_to_ipa tl lab false s = map_festival_to_ipa tl lab true s :=
  ⟨rfl,
   fun h => absurd (Except.ok.inj h) (by decide),
   fun _ _ _ => rfl⟩

/-- State of a `transcription.TempFile`: the `destroyed` flag set by
`destroy`, and whether the file currently exists on disk (it is created in
`__init__`, and may be removed externally). -/
structure TempFile where
  destroyed : Bool
  onDisk : Bool
  deriving DecidableEq, Repr

/-- `os.unlink`: removes the file; raises `FileNotFoundError` when the
file does not exist. -/
def osUnlink (s : TempFile) : Except PyError TempFile :=
  if s.onDisk then .ok { s with onDisk := false }
  else .error .fileNotFoundError

/-- From `TempFile.destroy`: `if not self.destroyed:
os.unlink(self.filepath); self.destroyed = True`.  The unlink is not
guarded, and the flag is only set after a successful unlink. -/
def TempFile.destroy (s : TempFile) : Except PyError TempFile :=
  if s.destroyed = false then
    (osUnlink s).map (fun s' => { s' with destroyed := true })
  else .ok s

/-- C6 counterexample: if the file has been removed from disk by other
means before the first `destroy` call, `destroy` raises
`FileNotFoundError` — it does fail when the file is already gone. -/
theorem TempFile_destroy_fails_when_file_gone :
    TempFile.destroy ⟨false, false⟩ = .error .fileNotFoundError := rfl

/-- C6 amended: `destroy` on a live temp file removes the file exactly
once; every call after a successful `destroy` is a no-op that cannot fail;
but `destroy` does raise `FileNotFoundError` when the file was already
removed from disk by other means (see
`TempFile_destroy_fails_when_file_gone`). -/
theorem TempFile_destroy_idempotent :
    TempFile.destroy ⟨false, true⟩ = .ok ⟨true, false⟩
    ∧ (∀ s : TempFile, s.destroyed = true → TempFile.destroy s = .ok s)
    ∧ (∀ s s' : TempFile, TempFile.destroy s = .ok s' →
        TempFile.destroy s' = .ok s' ∧ s'.destroyed = true
        ∧ (s.destroyed = false → s.onDisk = true ∧ s'.onDisk = false)) := by
  refine ⟨rfl, ?_, ?_⟩
  · intro s hs
    simp [TempFile.destroy, hs]
  · rintro ⟨d, o⟩ ⟨d', o'⟩ h
    cases d <;> cases o <;> cases d' <;> cases o' <;>
      simp_all [TempFile.destroy, osUnlink, Except.map]

theorem TempFile_destroy_idempotent_witness :
    TempFile.destroy ⟨true, false⟩ = .ok ⟨true, false⟩
    ∧ (⟨true, false⟩ : TempFile).destroyed = true :=
  ⟨(TempFile_destroy_idempotent.2.2 ⟨false, true⟩ ⟨true, false⟩ rfl).1,
   rfl⟩

/-- Outcome of the subprocess polling loop in `transcribe_string`. -/
inductive LoopRes where
  | finished (status : Int)
  | killedTimeout
  deriving DecidableEq, Repr

/-- The polling loop of `transcribe_string`
(`for i in range(timeout_loops+1): ...`), from iteration `i` on.
`poll j` is the value of `proc.poll()` at iteration `j` (`none` = the
subprocess is still running).  Returns the number of polls performed, the
number of 0.1-second sleeps performed, and the outcome; outcome
`killedTimeout` means the final iteration ran `proc.kill()` and raised the
timeout exception. -/
def pollLoopFrom (poll : Nat → Option Int) (timeout_loops i : Nat) :
    Nat × Nat × LoopRes :=
  match poll i with
  | some st => (1, 0, .finished st)
  | none =>
      if i < timeout_loops then
        let r := pollLoopFrom poll timeout_loops (i + 1)
        (r.1 + 1, r.2.1 + 1, r.2.2)
      else (1, 0, .killedTimeout)
termination_by timeout_loops - i

/-- The loop as entered by `transcribe_string`:
`timeout_loops = int(timeout/0.1)`, which is `10 * timeout` in exact
arithmetic (and for the timeouts the program uses, 5 and 30, the source's
float division rounds to the same value). -/
def transcribe_string_pollLoop (poll : Nat → Option Int) (timeout : Nat) :
    Nat × Nat × LoopRes :=
  pollLoopFrom poll (10 * timeout) 0

/-- The message of the exception raised on timeout:
`"Festival subprocess timed out (Timeout: %ss, Command: %s)." % (timeout,
command)`. -/
def festivalTimeoutMessage (timeout : Nat) (command : String) : String :=
  "Festival subprocess timed out (Timeout: " ++ toString timeout
    ++ "s, Command: " ++ command ++ ")."

theorem pollLoopFrom_never (poll : Nat → Option Int)
    (h : ∀ j, poll j = none) (tl : Nat) :
    ∀ k i, tl - i = k →
      pollLoopFrom poll tl i = (tl - i + 1, tl - i, .killedTimeout) := by
  intro k
  induction k with
  | zero =>
      intro i hk
      rw [pollLoopFrom, h i]
      have hge : ¬ i < tl := by omega
      simp [hge, hk]
  | succ k ih =>
      intro i hk
      rw [pollLoopFrom, h i]
      have hlt : i < tl := by omega
      simp only [hlt, if_true]
      rw [ih (i + 1) (by omega)]
      simp only [Prod.mk.injEq]
      exact ⟨by omega, by omega, trivial⟩

/-- C7: if the engine subprocess never exits, the invoker polls exactly
`timeout_loops + 1` times (with `timeout_loops = int(timeout/0.1)`,
i.e. `10 * timeout` exactly), sleeps 0.1 s between polls for a total
elapsed time within `timeout + 0.1`, then kills the subprocess and raises
the timeout exception, whose message contains the attempted command and
the timeout value; no result is returned. -/
theorem transcribe_string_timeout_spec (timeout : Nat) (command : String)
    (poll : Nat → Option Int) (hnever : ∀ i, poll i = none) :
    (transcribe_string_pollLoop poll timeout).1 = 10 * timeout + 1
    ∧ (transcribe_string_pollLoop poll timeout).2.1 = 10 * timeout
    ∧ (transcribe_string_pollLoop poll timeout).2.2 = LoopRes.killedTimeout
    ∧ (((transcribe_string_pollLoop poll timeout).2.1 : ℚ) * (1 / 10) ≤
        (timeout : ℚ) + 1 / 10)
    ∧ (∃ pre post, (festivalTimeoutMessage timeout command).data =
        pre ++ command.data ++ post)
    ∧ (∃ pre post, (festivalTimeoutMessage timeout command).data =
        pre ++ (toString timeout).data ++ post) := by
  have h0 := pollLoopFrom_never poll hnever (10 * timeout) (10 * timeout) 0
    (by omega)
  have hloop : transcribe_string_pollLoop poll timeout =
      (10 * timeout + 1, 10 * timeout, .killedTimeout) := by
    rw [transcribe_string_pollLoop, h0]
    simp
  refine ⟨by rw [hloop], by rw [hloop], by rw [hloop], ?_, ?_, ?_⟩
  · rw [hloop]
    push_cast
    have : (10 * (timeout : ℚ)) * (1 / 10) = timeout := by ring
    rw [this]
    linarith
  · refine ⟨("Festival subprocess timed out (Timeout: " ++ toString timeout
      ++ "s, Command: ").data, ").".data, ?_⟩
    simp [festivalTimeoutMessage, String.data_append]
  · refine ⟨("Festival subprocess timed out (Timeout: " : String).data,
      ("s, Command: " ++ command ++ ").").data, ?_⟩
    simp [festivalTimeoutMessage, String.data_append]

theorem transcribe_string_timeout_spec_witness :
    (transcribe_string_pollLoop (fun _ => none) 1).1 = 10 * 1 + 1
    ∧ (transcribe_string_pollLoop (fun _ => none) 1).2.1 = 10 * 1
    ∧ (transcribe_string_pollLoop (fun _ => none) 1).2.2 =
        LoopRes.killedTimeout
    ∧ (((transcribe_string_pollLoop (fun _ => none) 1).2.1 : ℚ) * (1 / 10) ≤
        ((1 : Nat) : ℚ) + 1 / 10)
    ∧ (∃ pre post,
        (festivalTimeoutMessage 1 "(voice_cb_cy_llg_diphone)").data =
          pre ++ ("(voice_cb_cy_llg_diphone)" : String).data ++ post)
    ∧ (∃ pre post,
        (festivalTimeoutMessage 1 "(voice_cb_cy_llg_diphone)").data =
          pre ++ (toString (1 : Nat)).data ++ post) :=
  transcribe_string_timeout_spec 1 "(voice_cb_cy_llg_diphone)"
    (fun _ => none) (fun _ => rfl)

/-- The temp-file read-back loop of `transcribe_string`: for each line of
the engine's segmentation output, keep `line.split()[-1] + " "` (the last
whitespace-delimited field).  Indexing `[-1]` on an empty split raises
`IndexError`. -/
def lastFieldsConcat : List (List Char) → Except PyError (List Char)
  | [] => .ok []
  | l :: rest =>
      match (pySplitWs l).getLast? with
      | some f => (lastFieldsConcat rest).map (fun t => f ++ [' '] ++ t)
      | none => .error (.indexError "list index out of range")

/-- From `transcription.transcribe_string`, with the Festival subprocess
round-trip abstracted as the oracle `engine`: given the normalized engine
text, `engine` yields the lines of the `utt.save.segs` temp file.  (The
script construction — `festival_escape`, the command template, the temp
path — only affects the script text fed to the subprocess, not the value
computed from its output.)  The source then maps the collected segment
string through `map_festival_to_ipa` with `encode_labialisation=False` and
the other flags at their defaults. -/
def transcribe_string (engine : List Char → List (List Char))
    (word : List Char) : Except PyError (List Char) :=
  let festivalText := map_utf8_to_festival word
  let output := engine festivalText
  (lastFieldsConcat output).bind (fun segs =>
    map_festival_to_ipa false false true segs)

/-- From `transcription.transcribe_line`:
`(word, count) = line.strip().split(',')` — a `ValueError` if the split
does not yield exactly two fields — then
`return "%s,%s,%s\r\n" % (transcription, count, word)`. -/
def transcribe_line (engine : List Char → List (List Char))
    (line : List Char) : Except PyError (List Char) :=
  match (pyStrip line).splitOn ',' with
  | [word, count] =>
      (transcribe_string engine word).map (fun transcription =>
        transcription ++ [','] ++ count ++ [','] ++ word ++ ['\r', '\n'])
  | _ => .error (.valueError "could not unpack word,frequency")

/-- C8: for every well-formed input line `word,frequency` (with
terminator), `transcribe_line` returns `transcription,frequency,word`
terminated by CRLF, the frequency field passed through unchanged; in
particular with input line `"caffi,12"` and an engine segmenting the word
as `k, a, f, i`, the output line is exactly `"kafi,12,caffi\r\n"`. -/
theorem transcribe_line_spec :
    (∀ (engine : List Char → List (List Char)) (line word freq tr : List Char),
        (pyStrip line).splitOn ',' = [word, freq] →
        transcribe_string engine word = .ok tr →
        transcribe_line engine line =
          .ok (tr ++ [','] ++ freq ++ [','] ++ word ++ ['\r', '\n']))
    ∧ transcribe_line (fun _ => ["k".data, "a".data, "f".data, "i".data])
        "caffi,12\n".data = .ok "kafi,12,caffi\r\n".data := by
  constructor
  · intro engine line word freq tr hsplit htr
    unfold transcribe_line
    rw [hsplit]
    dsimp only
    rw [htr]
    rfl
  · rfl

theorem transcribe_line_spec_witness :
    transcribe_line (fun _ => ["k".data, "a".data, "f".data, "i".data])
        "caffi,12\n".data =
      .ok ("kafi".data ++ [','] ++ "12".data ++ [','] ++ "caffi".data
        ++ ['\r', '\n']) :=
  transcribe_line_spec.1 (fun _ => ["k".data, "a".data, "f".data, "i".data])
    "caffi,12\n".data "caffi".data "12".data "kafi".data rfl rfl

theorem festival_escape_reversible_witness :
    festival_unescape (festival_escape ['a', '\\', '"']) = ['a', '\\', '"']
    ∧ noUnescapedBackslash (festival_escape ['a', '\\', '"']) = true :=
  ⟨festival_escape_reversible.2.1 ['a', '\\', '"'],
   festival_escape_reversible.2.2 ['a', '\\', '"']⟩

theorem map_utf8_to_festival_spec_witness :
    map_utf8_to_festival ['â'] =
      ((nfkd ['â']).map festivalMark).filter (fun c => c.toNat < 128) :=
  map_utf8_to_festival_spec.2.2.2.2.2.2 ['â']

theorem map_utf8_to_festival_ascii_idempotent_witness :
    map_utf8_to_festival (map_utf8_to_festival ['â']) =
      map_utf8_to_festival ['â'] :=
  map_utf8_to_festival_ascii_idempotent.2 ['â']

end WelshTools
